import Mathlib

/-!
Verification development for the JavaObjectDatabase code generator.

The Python sources are embedded shallowly:
 - `Field` models the per-field JSON dictionaries of
   `java_object_utill/java_object_generator.py` (optional keys become
   `Option`, booleans default to `false` exactly as in lines 55-68).
 - `gffl` models `ClassGenerator.get_full_field_list` (lines 101-116)
   together with `RootClassGenerator.get_full_field_list` (lines 534-551);
   the mutable per-generator memo fields `_follow_field` / `_full_fields`
   are threaded through an explicit environment, and a fuel parameter
   replaces Python's unbounded recursion.
 - `process_existing_file` models `ClassGenerator.process_existing_file`
   (lines 118-139).
 - `add_code_line` / `add_line` model `WritableSection._add_code_line` /
   `_add_line` of `code_generator/java/java_code_generator.py`
   (lines 75-119), and `writeSections` / `writeWS` model
   `WritableSection.write` / `_write_section` (lines 50-73).
 - The section generators `_Properties`, `_Constructor` and
   `_add_schema_method` are modelled by `properties_add_field`,
   `cons_add_field` / `cons_finish` and `add_schema_method_items`.
 - `batchOutputs` models the write-after-all-generation structure of
   `main.parse_all_files` (main.py lines 9-38).
-/

namespace JOD

/-- The `dataCore` strategy of a field, following the `elif` chain of
`ClassGenerator._Properties.add_field` (lines 334-406).  The JSON keys are
`static`, `derived`, `selfParent`, `directDerived`, `multiParentList`;
`unknownCore` stands for a `dataCore` dictionary carrying none of the five
recognised keys, which the Python code answers with
`raise Exception("Unknown data core")`. -/
inductive DataCore where
  | staticCore (value : String)
  | derived (codeLine : String) (sources : List String)
  | selfParent (classType : String)
  | directDerived (sources : String) (defaultValue : Option String)
      (defaultGetter : Option String)
  | multiParentList (parents : String)
  | unknownCore
deriving DecidableEq

/-- A field dictionary.  Keys that may be absent from the JSON are `Option`;
booleans default to `false`, exactly the defaults filled in by
`ClassGenerator.__init__` (lines 55-68).  `key` is absent (`none`) until
normalisation assigns it (line 54); the two fixed fields of
`RootClassGenerator` (lines 537-542) never receive a `key`, which is how the
Python dictionaries of the root differ structurally from every normalised
class field. -/
structure Field where
  name : String := ""
  type : Option String := none
  listType : Option String := none
  getType : Option String := none
  key : Option String := none
  string_source : Bool := false
  editable : Bool := false
  avoid_constructor : Bool := false
  database_source : Bool := false
  is_override : Bool := false
  canBeNull : Bool := false
  is_list : Bool := false
  fieldType : Option String := none
  dataCore : Option DataCore := none
  props : Option (List (String × List String)) := none
deriving DecidableEq

/-- `field['key']`: total accessor.  Python raises `KeyError` when the key is
absent; every place the generator reads `field['key']` is reached only by
normalised class fields, for which the key is always present. -/
def fkey (f : Field) : String := f.key.getD ""

/-- `field['type']`: total accessor, same remark as `fkey`. -/
def ftype (f : Field) : String := f.type.getD ""

/-- `field['getType']`: total accessor, same remark as `fkey`. -/
def fgetType (f : Field) : String := f.getType.getD ""

/-- The root's `ID` field (java_object_generator.py lines 537-539). -/
def rootID : Field :=
  { name := "ID", type := some "Integer", avoid_constructor := true }

/-- The root's `Children` field (java_object_generator.py lines 540-542). -/
def rootChildren : Field :=
  { name := "Children", type := some "DataObjectList", avoid_constructor := true }

/-- One generator as stored in the name-keyed registry: its `extends` name,
its own (already normalised) fields, and the two memo slots
`_follow_field` / `_full_fields` (`none` / `[]` until the first resolution).
`RootClassGenerator` is the instance `rootGen`, whose memo slots are
pre-populated in its constructor (lines 544-545). -/
structure Gen where
  extendsName : String := ""
  fields : List Field := []
  followField : Option Field := none
  fullFields : List Field := []
deriving DecidableEq

/-- The `RootClassGenerator` instance registered under
`Displayable_DataObject` by `main.parse_all_files` (main.py line 12). -/
def rootGen : Gen :=
  { extendsName := ""
    fields := [rootID, rootChildren]
    followField := some rootID
    fullFields := [rootID, rootChildren] }

/-- The shared `_class_dict` registry mapping class names to generators. -/
abbrev Env := String → Option Gen

/-- Python's `str.startswith`, computed on the character list (the
byte-position machinery of `String.startsWith` does not reduce inside the
kernel; on the character level the two agree). -/
def strStartsWith (s pre : String) : Bool := pre.data.isPrefixOf s.data

/-- Python's `str.endswith`, computed on the character list. -/
def strEndsWith (s suf : String) : Bool := suf.data.isSuffixOf s.data

/-- Python's `list.index(x)`: index of the first occurrence.  On a list not
containing `x` Python raises `ValueError`; this total version then returns
the length, a case the generator never reaches (the anchor is always a
member of the accumulated list). -/
def pyIndex {α : Type} [DecidableEq α] (x : α) : List α → Nat
  | [] => 0
  | y :: ys => if y = x then 0 else pyIndex x ys + 1

/-- Python's `list.insert(i, x)`: insert before index `i`, clamping to an
append when `i` exceeds the length (which `List.take` / `List.drop` do). -/
def pyInsert {α : Type} (i : Nat) (x : α) (l : List α) : List α :=
  l.take i ++ x :: l.drop i

/-- The `for field in self._fields` loop of `get_full_field_list`
(lines 112-114): insert each own field immediately after the current anchor
and advance the anchor to the field just inserted. -/
def insertOwnFields : Field → List Field → List Field → Field × List Field
  | a, full, [] => (a, full)
  | a, full, f :: fs => insertOwnFields f (pyInsert (pyIndex a full + 1) f full) fs

/-- `get_full_field_list` (lines 101-116) over the whole registry.  The
result carries the returned pair, the updated registry (mutation of the
generator's memo slots) and the number of parent-resolver queries performed
(`self._class_dict[self._json_data['extends']].get_full_field_list()`
invocations, transitively).  `RootClassGenerator.get_full_field_list`
(lines 550-551) is the memoised branch: its `followField` is pre-set.
A missing registry entry (Python `KeyError`) and fuel exhaustion (Python's
unbounded recursion on a cyclic `extends` graph) are `none`. -/
def gffl : Nat → Env → String → Option (Field × List Field × Env × Nat)
  | 0, _, _ => none
  | fuel + 1, env, name =>
    match env name with
    | none => none
    | some g =>
      match g.followField with
      | some a => some (a, g.fullFields, env, 0)
      | none =>
        match gffl fuel env g.extendsName with
        | none => none
        | some (pa, pfull, env1, k) =>
          let r : Field × List Field := insertOwnFields pa pfull g.fields
          some (r.1, r.2,
            fun n => if n = name then
                some { g with followField := some r.1, fullFields := r.2 }
              else env1 n,
            k + 1)

/-- Projection of `gffl` onto the returned `(followField, fullFields)` pair,
forgetting the registry (used where decidable statements are needed). -/
def gfflResult (fuel : Nat) (env : Env) (name : String) :
    Option (Field × List Field) :=
  (gffl fuel env name).map (fun r => (r.1, r.2.1))

/-- Python's `s[0].lower() + s[1:]` (IndexError on the empty string is never
reached: field names are non-empty in every schema). -/
def lowerFirst (s : String) : String :=
  match s.toList with
  | [] => ""
  | c :: cs => String.mk (c.toLower :: cs)

/-- Per-field normalisation performed by `ClassGenerator.__init__`:
the `key` assignment (line 54), the `type` / `listType` / `getType` logic
(lines 69-75, raising when both are absent), the `fieldType` default
(lines 76-77), and the `# TODO remove` loop (lines 96-99) that forces
`avoid_constructor` on every field carrying a `dataCore`.  The boolean
defaults of lines 55-68 are the `Field` structure defaults.  (The
`implements == "FileInterface"` validation of lines 79-94 concerns only the
`is_override` flags of three specifically named fields and is not needed by
any claim.) -/
def normalizeField (class_name : String) (f : Field) : Except String Field :=
  let f1 : Field := { f with key := some (class_name ++ "_" ++ f.name) }
  match f1.type, f1.listType with
  | none, none => .error "Either type or listType must be declared in the JSON file"
  | none, some lt =>
    let f2 : Field := { f1 with type := some (lt ++ "List"),
                                getType := some ("List<" ++ lt ++ ">") }
    let f3 : Field := if f2.fieldType = none
      then { f2 with fieldType := some "DataField_Schema" } else f2
    .ok (if f3.dataCore.isSome then { f3 with avoid_constructor := true } else f3)
  | some t, _ =>
    let f2 : Field := { f1 with getType := some t }
    let f3 : Field := if f2.fieldType = none
      then { f2 with fieldType := some "DataField_Schema" } else f2
    .ok (if f3.dataCore.isSome then { f3 with avoid_constructor := true } else f3)

/-- Normalisation of a class's whole field list. -/
def normalizeFields (class_name : String) (fs : List Field) :
    Except String (List Field) :=
  fs.mapM (normalizeField class_name)

/-- One entry of a generator section: a literal line, a nested
`WritableSection` (with its `code_lines` flag), or a `DividerComment`.
`DividerComment` is referenced by `java_object_generator.py` (lines 409 and
414) but its class is not among the sources; modelled from the spec: a
divider comment bearing the given name (`none` for the no-argument
`DividerComment()`). -/
inductive GenItem where
  | line (s : String)
  | sub (code_lines : Bool) (items : List GenItem)
  | divider (name : Option String)

/-- The source lines of the `derived` data-core block
(`_Properties.add_field` lines 351-356): every source is prefixed by a
comma continuation, and the last one also closes the call. -/
def derivedSourceLines : List String → List String
  | [] => []
  | [s] => ["                        , " ++ s ++ "));"]
  | s :: rest => ("                        , " ++ s) :: derivedSourceLines rest

/-- `ClassGenerator._Properties.add_field` (lines 321-410): the items
appended to the Properties accumulator for one own field — either nothing
(`[]`, when none of `properties` / `editable` / `dataCore` is present) or a
single nested section whose first entry is a `DividerComment` bearing the
field's name.  An unrecognised `dataCore` raises `Unknown data core`
(line 406). -/
def properties_add_field (class_name : String) (f : Field) :
    Except String (List GenItem) :=
  let propsItems : List GenItem :=
    match f.props with
    | some ps => ps.flatMap (fun kv => kv.2.map (fun value =>
        GenItem.line ("dataObjectSchema.get(" ++ fkey f ++ ").getProperty(" ++
          kv.1 ++ ".class)." ++ value)))
    | none => []
  let editItems : List GenItem :=
    if f.editable then
      [GenItem.line ("dataObjectSchema.get(" ++ fkey f ++ ").setManualCanEdit(true)")]
    else []
  match (match f.dataCore with
    | none => Except.ok ([] : List GenItem)
    | some (.staticCore value) =>
      Except.ok [GenItem.line ("dataObjectSchema.get(" ++ fkey f ++
        ").setDataCore_schema(new Static_DataCore_Schema<>(\"" ++ value ++ "\"))")]
    | some (.derived codeLine sources) =>
      Except.ok [GenItem.sub false
        ([GenItem.line ("dataObjectSchema.<" ++ ftype f ++ ">get(" ++ fkey f ++
            ").setDataCore_schema("),
          GenItem.line ("        new Derived_DataCore_Schema<" ++ ftype f ++
            ", " ++ class_name ++ ">"),
          GenItem.line ("                (container -> " ++ codeLine)] ++
          (derivedSourceLines sources).map GenItem.line)]
    | some (.selfParent classType) =>
      Except.ok [GenItem.sub false
        [GenItem.line ("dataObjectSchema.<List<" ++ fgetType f ++ ">>get(" ++
            fkey f ++ ").setDataCore_schema("),
         GenItem.line ("        createSelfParentList(" ++ classType ++
            ".class, null));")]]
    | some (.directDerived sources defaultValue defaultGetter) =>
      Except.ok [GenItem.sub false
        ([GenItem.line ("dataObjectSchema.<" ++ fgetType f ++ ">get(" ++
            fkey f ++ ").setDataCore_schema(")] ++
          (match defaultValue with
           | some dv =>
             [GenItem.line ("        createDefaultDirectDerivedDataCore(" ++ dv ++ ","),
              GenItem.line ("                " ++ sources ++ "));")]
           | none =>
             match defaultGetter with
             | some dg =>
               [GenItem.line ("        createDefaultDirectDerivedDataCoreGetter(" ++
                  dg ++ ","),
                GenItem.line ("                " ++ sources ++ "));")]
             | none =>
               [GenItem.line ("        createDirectDerivedDataCore(" ++ sources ++ "));")]))]
    | some (.multiParentList parents) =>
      Except.ok [GenItem.sub false
        [GenItem.line ("dataObjectSchema.<List<" ++ fgetType f ++ ">>get(" ++
            fkey f ++ ").setDataCore_schema("),
         GenItem.line ("        createMultiParentList(" ++ fgetType f ++
            ".class, " ++ parents ++ "));")]]
    | some .unknownCore => Except.error "Unknown data core") with
  | .error e => .error e
  | .ok dcItems =>
    let anyUsed := f.props.isSome || f.editable || f.dataCore.isSome
    if anyUsed then
      .ok [GenItem.sub true
        (GenItem.divider (some f.name) :: propsItems ++ editItems ++ dcItems)]
    else .ok []

/-- The accumulator of `ClassGenerator._Constructor` (lines 418-423):
parameter strings, the raw `set_line` section, and the `_database_source`
slot. -/
structure ConsState where
  params : List String := []
  setLine : List String := []
  databaseSource : Option Field := none
deriving DecidableEq

/-- `field['type'] + " " + field['name'][0].lower() + field['name'][1:]`
(line 432). -/
def paramOf (f : Field) : String := ftype f ++ " " ++ lowerFirst f.name

/-- The `set_line` entry of line 433. -/
def setLineOf (f : Field) : String :=
  "        , " ++ fkey f ++ ", " ++ lowerFirst f.name

/-- `_Constructor.add_field` (lines 428-435); `add_virtual_field`
(lines 425-426) delegates to it, so the constructor folds this over the
whole resolved field list. -/
def cons_add_field (st : ConsState) (f : Field) : ConsState :=
  if f.avoid_constructor then st
  else
    { params := st.params ++ [paramOf f]
      setLine := st.setLine ++ [setLineOf f]
      databaseSource := if f.database_source then some f else st.databaseSource }

/-- `_Constructor.add` (lines 437-458): the final parameter list and method
body.  With a recorded `databaseSource` field the persistence context is
forwarded through that field's lowered name; otherwise `Database database`
is inserted as the first parameter and the body opens with
`super(database`. -/
def cons_finish (st : ConsState) : List String × List GenItem :=
  match st.databaseSource with
  | some f =>
    (st.params,
     [GenItem.line ("super(" ++ lowerFirst f.name ++ ".getTrackingDatabase()"),
      GenItem.sub false (st.setLine.map GenItem.line),
      GenItem.line ");"])
  | none =>
    ("Database database" :: st.params,
     [GenItem.line "super(database",
      GenItem.sub false (st.setLine.map GenItem.line),
      GenItem.line ");"])

/-- The full constructor generated from a resolved field list. -/
def constructor_build (fullFields : List Field) : List String × List GenItem :=
  cons_finish (fullFields.foldl cons_add_field {})

/-- The last constructor-visible field flagged `database_source` (the value
the `_database_source` slot holds after the whole field list is visited). -/
def dbsrcOf (fs : List Field) : Option Field :=
  (fs.filter (fun f => !f.avoid_constructor && f.database_source)).getLast?

/-- `ClassGenerator._add_schema_method` (lines 201-222): the sections
appended to the `getDataObjectSchema` method, given the already accumulated
Definitions and Properties sections.  `_Definitions.add` (lines 309-311)
appends a trailing blank to its section; `_Properties.add` (lines 412-416)
appends a closing divider and a blank only when non-empty; the terminal line
is `endLayer` for an abstract class and `finaliseContainer` otherwise
(lines 219-222). -/
def add_schema_method_items (class_name extendsName : String) (abstract : Bool)
    (defs props : List GenItem) : List GenItem :=
  [GenItem.line ("DataObject_Schema dataObjectSchema = " ++ extendsName ++
     ".getDataObjectSchema()"),
   GenItem.line "",
   GenItem.sub true (defs ++ [GenItem.line ""]),
   GenItem.sub true
     (if props.isEmpty then props
      else props ++ [GenItem.divider none, GenItem.line ""]),
   GenItem.line
     (if abstract then "return dataObjectSchema.endLayer(" ++ class_name ++ ".class)"
      else "return dataObjectSchema.finaliseContainer(" ++ class_name ++ ".class)")]

/-- The scanning loop of `ClassGenerator.process_existing_file`
(lines 118-139), with its two booleans `add_blank` and `imports_start` and
the accumulated lines appended to `self.file`. -/
def goPE : List String → Bool → Bool → List String → List String
  | [], _, _, acc => acc
  | l :: rest, addBlank, importsStart, acc =>
    if strStartsWith l "import" then
      goPE rest false true (acc ++ (if addBlank then [""] else []) ++ [l])
    else if l = "" then
      goPE rest (if importsStart then true else addBlank) importsStart acc
    else if importsStart then acc
    else goPE rest addBlank importsStart acc

/-- `ClassGenerator.process_existing_file` (lines 118-139): the lines the
scan retains from a previously generated file. -/
def process_existing_file (file_lines : List String) : List String :=
  goPE file_lines false false []

mutual

/-- Independent characterisation of the retained import block, used to
re-state `process_existing_file` non-operationally: starting at an import
line, keep import lines; a run of blank lines is kept as a single blank
when an import follows it and dropped otherwise; anything else stops the
scan. -/
def collectImports : List String → List String
  | [] => []
  | l :: rest =>
    if strStartsWith l "import" then l :: collectImports rest
    else if l = "" then collectAfterBlank rest
    else []

/-- Inside a run of blank lines after at least one import line: skip further
blanks, and emit a single blank line only when another import follows (so
interior blank runs collapse to one blank and trailing blanks vanish). -/
def collectAfterBlank : List String → List String
  | [] => []
  | l :: rest =>
    if strStartsWith l "import" then "" :: l :: collectImports rest
    else if l = "" then collectAfterBlank rest
    else []

end

/-- Modelled from the words of claim C4: the retained block consists exactly
of the contiguous import lines with their original interior blank-line
spacing preserved (trailing blanks dropped), and scanning stops at the first
non-import, non-blank line. -/
def claimedRetained (lines : List String) : List String :=
  (((lines.takeWhile (fun l => strStartsWith l "import" || l = "")).dropWhile
      (fun l => !(strStartsWith l "import"))).reverse.dropWhile
      (fun l => l = "")).reverse

/-- Modelled from the words of claim C1: the full field list of a class is
the parent's full field list with the class's own fields inserted
immediately following the parent's last field (for the parent relevant to
the counterexample — the root — the last of its resolved list and its own
last-declared field are both `Children`, so both readings of the claim
agree). -/
def claimedFullFields (parentFull own : List Field) : List Field :=
  parentFull ++ own

/-- The tab prefix built by the `for x in range(...)` loops of
`_add_code_line` / `_add_line` (lines 91-92 and 113-114). -/
def tabString : Nat → String
  | 0 => ""
  | n + 1 => tabString n ++ "    "

/-- `WritableSection._blank_line` (lines 75-79) appends a bare newline. -/
def blank_line (file_lines : List String) : List String := file_lines ++ ["\n"]

/-- `WritableSection._add_code_line` (lines 81-101): statement mode.  A line
ending in a structural brace, starting with a line comment, or already
carrying a terminator is emitted verbatim; otherwise `;` is appended; the
empty line becomes a blank line. -/
def add_code_line (tab_offset tabs : Nat) (text : String)
    (file_lines : List String) : List String :=
  if text.length != 0 then
    let base := tabString (tab_offset + tabs) ++ text
    if strEndsWith text "\x7b" || strEndsWith text "\x7d" || strStartsWith text "//" ||
        strEndsWith text ";" || text.length == 0 then
      file_lines ++ [base ++ "\n"]
    else
      file_lines ++ [base ++ ";\n"]
  else blank_line file_lines

/-- `WritableSection._add_line` (lines 103-119): raw mode, no terminator is
ever appended. -/
def add_line (tab_offset tabs : Nat) (text : String)
    (file_lines : List String) : List String :=
  if text.length != 0 then
    file_lines ++ [tabString (tab_offset + tabs) ++ text ++ "\n"]
  else blank_line file_lines

/-- The `_sections` list of a `WritableSection`: a sequence of literal lines
and nested sections, each nested section carrying its own `code_lines` flag
and its own mutable `_tab_offset` slot (the slot a `write` call overwrites
at line 59). -/
inductive Sections where
  | nil : Sections
  | line (s : String) (rest : Sections) : Sections
  | sub (code_lines : Bool) (tab_offset : Nat) (children : Sections)
      (rest : Sections) : Sections

/-- `WritableSection.write` / `_write_section` (lines 50-73) over the
`_sections` of one section: each literal line goes through
`_add_code_line` or `_add_line` according to the section's `code_lines`
flag, each nested section recursively writes itself at the current offset
(overwriting its stored `_tab_offset`), and the output lines accumulate in
the shared `file_lines` list.  Returns the sections with their updated
mutable state together with the extended output. -/
def writeSections (cl : Bool) (tab : Nat) :
    Sections → List String → Sections × List String
  | .nil, out => (.nil, out)
  | .line s rest, out =>
    let out1 := if cl then add_code_line tab 0 s out else add_line tab 0 s out
    let r := writeSections cl tab rest out1
    (.line s r.1, r.2)
  | .sub ccl _ ch rest, out =>
    let c := writeSections ccl tab ch out
    let r := writeSections cl tab rest c.2
    (.sub ccl tab c.1 r.1, r.2)

/-- A top-level `WritableSection` object: its `_code_lines` flag, its
mutable `_tab_offset` slot and its `_sections`. -/
structure WSObj where
  code_lines : Bool := true
  tab_offset : Nat := 0
  sections : Sections := .nil

/-- `WritableSection.write` (lines 50-60) on a top-level object: store the
offset, write the sections, return the mutated object and the output. -/
def writeWS (w : WSObj) (file_lines : List String) (tab_offset : Nat) :
    WSObj × List String :=
  let r := writeSections w.code_lines tab_offset w.sections file_lines
  ({ w with tab_offset := tab_offset, sections := r.1 }, r.2)

/-- Forgets the mutable `_tab_offset` slots of a section tree (the part of
its state a `write` call may change). -/
def eraseTabs : Sections → Sections
  | .nil => .nil
  | .line s rest => .line s (eraseTabs rest)
  | .sub cl _ ch rest => .sub cl 0 (eraseTabs ch) (eraseTabs rest)

/-- The generation loop of `main.parse_all_files` (main.py lines 28-35):
generate every class's document in order, stopping at the first error. -/
def generateAll {α β ε : Type} (gen : α → Except ε β) :
    List α → Except ε (List (α × β))
  | [] => .ok []
  | c :: cs =>
    match gen c with
    | .error e => .error e
    | .ok d =>
      match generateAll gen cs with
      | .error e => .error e
      | .ok rest => .ok ((c, d) :: rest)

/-- `main.parse_all_files` (main.py lines 9-38): the files actually written.
The write loop (lines 37-38) runs only when the whole generation loop
completed without an exception; an exception makes the function return
before any write. -/
def batchOutputs {α β ε : Type} (gen : α → Except ε β) (files : List α) :
    List (α × β) :=
  match generateAll gen files with
  | .error _ => []
  | .ok ds => ds

/-- A normalised field of the example class `Person` (the end-to-end
scenario of the spec, section 8): `{name: "Name", type: "String"}` after
`ClassGenerator.__init__`. -/
def fPerson : Field :=
  { name := "Name", type := some "String", getType := some "String",
    key := some "Person_Name", fieldType := some "DataField_Schema" }

/-- The un-resolved generator of the example class `Person`. -/
def personGen : Gen :=
  { extendsName := "Displayable_DataObject", fields := [fPerson] }

/-- A two-entry registry: the root and `Person`. -/
def env0 : Env := fun n =>
  if n = "Displayable_DataObject" then some rootGen
  else if n = "Person" then some personGen
  else none

/-- `personGen` after its first resolution memoised its pair. -/
def personGenMemo : Gen :=
  { personGen with followField := some fPerson,
                   fullFields := [rootID, fPerson, rootChildren] }

/-- `env0` after `Person` resolved once. -/
def env0Memo : Env := fun n =>
  if n = "Person" then some personGenMemo else env0 n

/-- The shape every resolved full field list keeps: the root's `ID` first,
the root's `Children` last, and the anchor within the part before
`Children`. -/
def chainInvP (a : Field) (l : List Field) : Prop :=
  ∃ mid, l = rootID :: mid ++ [rootChildren] ∧ a ∈ rootID :: mid

/-- A registry is root-grounded: every generator whose memo is already
populated holds a chain of the invariant shape (the root generator does by
construction, lines 544-545). -/
def envOK (env : Env) : Prop :=
  ∀ n g a, env n = some g → g.followField = some a → chainInvP a g.fullFields

/-- A raw field with a `Static` data core and no `avoid_constructor` flag
(the JSON of claim C5's scenario). -/
def f0 : Field :=
  { name := "Status", type := some "String",
    dataCore := some (.staticCore "N/A") }

/-- `f0` after `ClassGenerator.__init__` normalisation for class `Foo`. -/
def nf0 : Field :=
  { name := "Status", type := some "String", getType := some "String",
    key := some "Foo_Status", fieldType := some "DataField_Schema",
    avoid_constructor := true, dataCore := some (.staticCore "N/A") }

/-- A normalised field flagged `database_source` (claim C6's scenario). -/
def fBank : Field :=
  { name := "Bank", type := some "Bank", getType := some "Bank",
    key := some "Task_Bank", fieldType := some "DataField_Schema",
    database_source := true }

/-- A field whose `dataCore` carries none of the five recognised keys
(claim C8's scenario). -/
def fUnknown : Field :=
  { name := "X", type := some "T", dataCore := some .unknownCore }

theorem string_ne_empty_of_length_ne {s : String} (h : s ≠ "") : s.length ≠ 0 := by
  intro hc
  apply h
  cases s with
  | mk data =>
    cases data with
    | nil => rfl
    | cons c cs => simp [String.length] at hc

/-- C3: for every leaf line written in statement (code-line) mode, an empty
line is emitted as a blank line; a line ending with a structural brace,
starting with a line comment, or ending with an explicit terminator is
emitted verbatim plus indentation and line terminator; every other line has
the terminator appended.  Raw mode never appends a terminator. -/
theorem c3_leaf_formatting (tab tabs : Nat) (text : String) (out : List String) :
    add_code_line tab tabs text out =
      out ++ [if text = "" then "\n"
        else if strEndsWith text "\x7b" || strEndsWith text "\x7d" ||
            strStartsWith text "//" || strEndsWith text ";" then
          tabString (tab + tabs) ++ text ++ "\n"
        else tabString (tab + tabs) ++ text ++ ";\n"] ∧
    add_line tab tabs text out =
      out ++ [if text = "" then "\n"
              else tabString (tab + tabs) ++ text ++ "\n"] := by
  by_cases h : text = ""
  · subst h
    exact ⟨rfl, rfl⟩
  · have hl : text.length ≠ 0 := string_ne_empty_of_length_ne h
    have hl2 : (text.length == 0) = false := by
      simp [hl]
    constructor
    · simp only [add_code_line, blank_line, if_neg h, hl2, Bool.or_false, bne,
        hl2, Bool.not_false, if_true]
      by_cases hc : (strEndsWith text "\x7b" || strEndsWith text "\x7d" ||
          strStartsWith text "//" || strEndsWith text ";") = true
      · simp [hc, hl]
      · simp only [Bool.not_eq_true] at hc
        simp [hc, hl]
    · simp [add_line, blank_line, if_neg h, hl]

/-- The import-scanning loop, once imports have started: with no pending
blank it agrees with `collectImports`, with a pending blank it agrees with
`collectAfterBlank`. -/
theorem goPE_import_phase (lines : List String) :
    ∀ acc : List String,
      (goPE lines false true acc = acc ++ collectImports lines) ∧
      (goPE lines true true acc = acc ++ collectAfterBlank lines) := by
  induction lines with
  | nil =>
    intro acc
    constructor <;> simp [goPE, collectImports, collectAfterBlank]
  | cons l rest ih =>
    intro acc
    by_cases himp : strStartsWith l "import" = true
    · constructor
      · rw [show goPE (l :: rest) false true acc =
              goPE rest false true (acc ++ [l]) by simp [goPE, himp],
            (ih (acc ++ [l])).1, collectImports]
        simp [himp]
      · rw [show goPE (l :: rest) true true acc =
              goPE rest false true (acc ++ [""] ++ [l]) by simp [goPE, himp],
            (ih (acc ++ [""] ++ [l])).1, collectAfterBlank]
        simp [himp]
    · by_cases hbl : l = ""
      · subst hbl
        constructor
        · rw [show goPE ("" :: rest) false true acc =
                goPE rest true true acc by simp [goPE, himp],
              (ih acc).2, collectImports]
          simp [show strStartsWith "" "import" = false from rfl]
        · rw [show goPE ("" :: rest) true true acc =
                goPE rest true true acc by simp [goPE, himp],
              (ih acc).2, collectAfterBlank]
          simp [show strStartsWith "" "import" = false from rfl]
      · constructor
        · rw [show goPE (l :: rest) false true acc = acc by
                simp [goPE, himp, hbl],
              collectImports]
          simp [himp, hbl]
        · rw [show goPE (l :: rest) true true acc = acc by
                simp [goPE, himp, hbl],
              collectAfterBlank]
          simp [himp, hbl]

/-- The import-scanning loop before any import line was seen: blank and
non-blank lines are skipped alike, so the scan effectively starts at the
first import line. -/
theorem goPE_prefix_phase (lines : List String) :
    ∀ acc, goPE lines false false acc =
      acc ++ collectImports (lines.dropWhile (fun l => !(strStartsWith l "import"))) := by
  induction lines with
  | nil => intro acc; simp [goPE, collectImports]
  | cons l rest ih =>
    intro acc
    by_cases himp : strStartsWith l "import" = true
    · rw [show goPE (l :: rest) false false acc =
            goPE rest false true (acc ++ [l]) by simp [goPE, himp],
          (goPE_import_phase rest (acc ++ [l])).1,
          List.dropWhile_cons, if_neg (by simp [himp]), collectImports]
      simp [himp]
    · by_cases hbl : l = ""
      · subst hbl
        rw [show goPE ("" :: rest) false false acc =
              goPE rest false false acc by simp [goPE, himp],
            List.dropWhile_cons,
            if_pos (by simp [show strStartsWith "" "import" = false from rfl])]
        exact ih acc
      · rw [show goPE (l :: rest) false false acc =
              goPE rest false false acc by simp [goPE, himp, hbl],
            List.dropWhile_cons, if_pos (by simp [himp])]
        exact ih acc

/-- C4 (amended): the retained block consists of the import lines starting
at the first import line and stopping at the first subsequent non-import,
non-blank line; lines before the first import line (blank or not) are
skipped without stopping the scan, each interior run of blank lines is
collapsed to a single blank line, and trailing blank lines are dropped. -/
theorem c4_retained_imports (lines : List String) :
    process_existing_file lines =
      collectImports (lines.dropWhile (fun l => !(strStartsWith l "import"))) := by
  simpa [process_existing_file] using goPE_prefix_phase lines []

/-- C4 counterexample: on a prior file opening with a non-import, non-blank
line the scan does not stop there (the code skips it and still retains the
imports below, the claim retains nothing), and an interior run of two blank
lines between imports is collapsed to a single blank line rather than
preserved. -/
theorem c4_counterexample :
    process_existing_file ["class X", "import a", "", "", "import b"] =
      ["import a", "", "import b"] ∧
    claimedRetained ["class X", "import a", "", "", "import b"] = [] ∧
    (["import a", "", "import b"] : List String) ≠ [] ∧
    process_existing_file ["import a", "", "", "import b"] =
      ["import a", "", "import b"] ∧
    claimedRetained ["import a", "", "", "import b"] =
      ["import a", "", "", "import b"] ∧
    (["import a", "", "import b"] : List String) ≠
      ["import a", "", "", "import b"] :=
  ⟨by decide, by decide, by decide, by decide, by decide, by decide⟩

/-- C7: the schema-registration method's terminal line is the `endLayer`
call exactly when the class is abstract and the `finaliseContainer` call
exactly when it is concrete — never both, never neither. -/
theorem c7_terminal_line (class_name extendsName : String) (abstract : Bool)
    (defs props : List GenItem) :
    ((add_schema_method_items class_name extendsName abstract defs props).getLast? =
        some (GenItem.line ("return dataObjectSchema.endLayer(" ++
          class_name ++ ".class)")) ↔ abstract = true) ∧
    ((add_schema_method_items class_name extendsName abstract defs props).getLast? =
        some (GenItem.line ("return dataObjectSchema.finaliseContainer(" ++
          class_name ++ ".class)")) ↔ abstract = false) := by
  have hne : ("return dataObjectSchema.endLayer(" ++ class_name ++ ".class)") ≠
      ("return dataObjectSchema.finaliseContainer(" ++ class_name ++ ".class)") := by
    intro hc
    have hlen := congrArg String.length hc
    simp only [String.length_append] at hlen
    have h1 : ("return dataObjectSchema.endLayer(").length = 33 := rfl
    have h2 : ("return dataObjectSchema.finaliseContainer(").length = 42 := rfl
    omega
  cases abstract
  · have hget : (add_schema_method_items class_name extendsName false defs
        props).getLast? = some (GenItem.line
          ("return dataObjectSchema.finaliseContainer(" ++
            class_name ++ ".class)")) := rfl
    rw [hget]
    refine ⟨⟨fun hc => ?_, fun hc => by cases hc⟩, ⟨fun _ => rfl, fun _ => rfl⟩⟩
    simp only [Option.some.injEq, GenItem.line.injEq] at hc
    exact absurd hc.symm hne
  · have hget : (add_schema_method_items class_name extendsName true defs
        props).getLast? = some (GenItem.line
          ("return dataObjectSchema.endLayer(" ++
            class_name ++ ".class)")) := rfl
    rw [hget]
    refine ⟨⟨fun _ => rfl, fun _ => rfl⟩, ⟨fun hc => ?_, fun hc => by cases hc⟩⟩
    simp only [Option.some.injEq, GenItem.line.injEq] at hc
    exact absurd hc hne

theorem generateAll_error_of_mem {α β ε : Type} (gen : α → Except ε β)
    (files : List α) (c : α) (e : ε) (hc : c ∈ files) (he : gen c = .error e) :
    ∃ e2, generateAll gen files = .error e2 := by
  induction files with
  | nil => cases hc
  | cons a as ih =>
    rcases List.mem_cons.mp hc with h | h
    · subst h
      exact ⟨e, by simp [generateAll, he]⟩
    · obtain ⟨e2, he2⟩ := ih h
      cases hga : gen a with
      | error e1 => exact ⟨e1, by simp [generateAll, hga]⟩
      | ok d => exact ⟨e2, by simp [generateAll, hga, he2]⟩

/-- C8: if generating any class's document raises an error, no output file
is written for any class of the batch — the write loop of
`parse_all_files` is reached only after every generation succeeded. -/
theorem c8_no_partial_output {α β ε : Type} (gen : α → Except ε β)
    (files : List α) (c : α) (e : ε) (hc : c ∈ files) (he : gen c = .error e) :
    batchOutputs gen files = [] := by
  obtain ⟨e2, he2⟩ := generateAll_error_of_mem gen files c e hc he
  simp [batchOutputs, he2]

/-- Witness for C8: a field whose `dataCore` matches no recognised strategy
makes generation raise `Unknown data core`, and the batch then writes
nothing. -/
theorem c8_witness :
    fUnknown ∈ [fUnknown] ∧
    properties_add_field "C" fUnknown = .error "Unknown data core" ∧
    batchOutputs (fun f => properties_add_field "C" f) [fUnknown] = [] :=
  ⟨List.mem_cons_self fUnknown [], rfl,
   c8_no_partial_output (fun f => properties_add_field "C" f) [fUnknown]
     fUnknown "Unknown data core" (List.mem_cons_self fUnknown []) rfl⟩

/-- Writing a section tree only reads its `_sections` and `code_lines`
structure: the output is unchanged if the mutable `_tab_offset` slots are
forgotten first, and writing leaves that structure intact. -/
theorem writeSections_eraseTabs (s : Sections) :
    ∀ (cl : Bool) (tab : Nat) (out : List String),
      eraseTabs (writeSections cl tab s out).1 = eraseTabs s ∧
      (writeSections cl tab s out).2 =
        (writeSections cl tab (eraseTabs s) out).2 := by
  induction s with
  | nil => intro cl tab out; exact ⟨rfl, rfl⟩
  | line str rest ih =>
    intro cl tab out
    simp only [writeSections, eraseTabs]
    constructor
    · rw [(ih cl tab _).1]
    · rw [(ih cl tab _).2]
  | sub ccl ct ch rest ihch ihrest =>
    intro cl tab out
    simp only [writeSections, eraseTabs]
    constructor
    · rw [(ihch ccl tab out).1, (ihrest cl tab _).1]
    · rw [(ihrest cl tab _).2, (ihch ccl tab out).2,
        ← (ihrest cl tab ((writeSections ccl tab (eraseTabs ch) out)).2).2]

/-- C9: document-tree serialization is deterministic — writing the same
tree twice into two fresh output lists with the same indentation offset
produces identical line sequences (the state a first write leaves behind
does not influence a second write). -/
theorem c9_deterministic (w : WSObj) (tab : Nat) :
    (writeWS (writeWS w [] tab).1 [] tab).2 = (writeWS w [] tab).2 := by
  simp only [writeWS]
  have h1 := writeSections_eraseTabs w.sections w.code_lines tab []
  have h2 := writeSections_eraseTabs
    (writeSections w.code_lines tab w.sections []).1 w.code_lines tab []
  rw [h2.2, h1.1, ← h1.2]

theorem pyIndex_lt_length {α : Type} [DecidableEq α] (x : α) (l : List α)
    (h : x ∈ l) : pyIndex x l < l.length := by
  induction l with
  | nil => cases h
  | cons y ys ih =>
    by_cases hy : y = x
    · simp [pyIndex, hy]
    · rcases List.mem_cons.mp h with h1 | h1
      · exact absurd h1.symm hy
      · simp only [pyIndex, if_neg hy, List.length_cons]
        exact Nat.succ_lt_succ (ih h1)

theorem pyIndex_lt_of_mem_left {α : Type} [DecidableEq α] (x : α)
    (l1 l2 : List α) (h : x ∈ l1) : pyIndex x (l1 ++ l2) < l1.length := by
  induction l1 with
  | nil => cases h
  | cons y ys ih =>
    by_cases hy : y = x
    · simp [pyIndex, hy]
    · rcases List.mem_cons.mp h with h1 | h1
      · exact absurd h1.symm hy
      · simp only [List.cons_append, pyIndex, if_neg hy, List.length_cons]
        exact Nat.succ_lt_succ (ih h1)

theorem pyIndex_append_cons {α : Type} [DecidableEq α] (x : α)
    (l1 l2 : List α) (h : x ∉ l1) : pyIndex x (l1 ++ x :: l2) = l1.length := by
  induction l1 with
  | nil => simp [pyIndex]
  | cons y ys ih =>
    have hy : ¬ (y = x) := fun hc => h (by simp [hc])
    simp only [List.cons_append, pyIndex, if_neg hy, List.length_cons,
      List.append_eq]
    exact congrArg (fun n => n + 1) (ih (fun hc => h (List.mem_cons_of_mem y hc)))

/-- The insertion loop of `get_full_field_list`, characterised: when the own
fields are distinct, fresh with respect to the inherited list, and the
anchor is a member, the loop splices the own fields as one block immediately
after the anchor's first occurrence, and the new anchor is the last own
field (or the old anchor when there are none). -/
theorem insertOwnFields_eq (own : List Field) :
    ∀ (a : Field) (pfull : List Field), a ∈ pfull → own.Nodup →
      (∀ f ∈ own, f ∉ pfull) →
      insertOwnFields a pfull own =
        (own.getLastD a,
         pfull.take (pyIndex a pfull + 1) ++ own ++
           pfull.drop (pyIndex a pfull + 1)) := by
  induction own with
  | nil =>
    intro a pfull ha _ _
    simp [insertOwnFields]
  | cons f fs ih =>
    intro a pfull ha hnd hdisj
    have hlt := pyIndex_lt_length a pfull ha
    have htakelen : (pfull.take (pyIndex a pfull + 1)).length =
        pyIndex a pfull + 1 := by
      rw [List.length_take]; omega
    have hfnot : f ∉ pfull := hdisj f (by simp)
    have hfull1 : pyInsert (pyIndex a pfull + 1) f pfull =
        pfull.take (pyIndex a pfull + 1) ++ f ::
          pfull.drop (pyIndex a pfull + 1) := rfl
    have hfmem : f ∈ pfull.take (pyIndex a pfull + 1) ++ f ::
        pfull.drop (pyIndex a pfull + 1) := by simp
    have hnd2 : fs.Nodup := (List.nodup_cons.mp hnd).2
    have hfnfs : f ∉ fs := (List.nodup_cons.mp hnd).1
    have hdisj2 : ∀ x ∈ fs, x ∉ pfull.take (pyIndex a pfull + 1) ++ f ::
        pfull.drop (pyIndex a pfull + 1) := by
      intro x hx hmem
      have hxp : x ∉ pfull := hdisj x (List.mem_cons_of_mem f hx)
      rcases List.mem_append.mp hmem with h1 | h1
      · exact hxp (List.mem_of_mem_take h1)
      · rcases List.mem_cons.mp h1 with h2 | h2
        · exact hfnfs (h2 ▸ hx)
        · exact hxp (List.mem_of_mem_drop h2)
    have hidx : pyIndex f (pfull.take (pyIndex a pfull + 1) ++ f ::
        pfull.drop (pyIndex a pfull + 1)) = pyIndex a pfull + 1 := by
      rw [pyIndex_append_cons f _ _
        (fun hc => hfnot (List.mem_of_mem_take hc)), htakelen]
    simp only [insertOwnFields, hfull1]
    rw [ih f _ hfmem hnd2 hdisj2, hidx, Prod.mk.injEq]
    constructor
    · exact (List.getLastD_cons a f fs).symm
    · rw [List.take_append_eq_append_take, List.drop_append_eq_append_drop,
        htakelen]
      have hTtake : (pfull.take (pyIndex a pfull + 1)).take
          (pyIndex a pfull + 1 + 1) = pfull.take (pyIndex a pfull + 1) :=
        List.take_of_length_le (by rw [htakelen]; omega)
      have hTdrop : (pfull.take (pyIndex a pfull + 1)).drop
          (pyIndex a pfull + 1 + 1) = [] :=
        List.drop_eq_nil_of_le (by rw [htakelen]; omega)
      have h21 : pyIndex a pfull + 1 + 1 - (pyIndex a pfull + 1) = 1 := by omega
      rw [hTtake, hTdrop, h21]
      simp

/-- C1 (amended): for every class C whose parent resolves to anchor
`pa` and full list `pl`, with C's own fields distinct and fresh, the
resolved full field list of C equals `pl` with C's own fields inserted, in
C's declaration order, as one block immediately following the parent's
anchor (follow) field — the parent's own last-declared field for parents
that declare fields, but the root's first field `ID` for the root — and
erasing C's own fields from C's list gives back exactly `pl`, so the
relative order of all of the parent's fields is unchanged. -/
theorem c1_splice_after_anchor (fuel : Nat) (env : Env) (name : String)
    (g : Gen) (pa : Field) (pl : List Field) (env1 : Env) (k1 : Nat)
    (res : Field × List Field × Env × Nat)
    (hg : env name = some g) (hmemo : g.followField = none)
    (hp : gffl fuel env g.extendsName = some (pa, pl, env1, k1))
    (hres : gffl (fuel + 1) env name = some res)
    (hmem : pa ∈ pl) (hnd : g.fields.Nodup)
    (hdisj : ∀ f ∈ g.fields, f ∉ pl) :
    res.2.1 = pl.take (pyIndex pa pl + 1) ++ g.fields ++
        pl.drop (pyIndex pa pl + 1) ∧
    res.2.1.filter (fun x => decide (x ∉ g.fields)) = pl := by
  simp only [gffl, hg, hmemo, hp, Option.some.injEq] at hres
  have hins := insertOwnFields_eq g.fields pa pl hmem hnd hdisj
  have hsnd : res.2.1 = (insertOwnFields pa pl g.fields).2 := by
    rw [← hres]
  rw [hsnd, hins]
  refine ⟨rfl, ?_⟩
  have htake : ∀ x ∈ pl.take (pyIndex pa pl + 1), decide (x ∉ g.fields) = true := by
    intro x hx
    simp only [decide_eq_true_eq]
    exact fun hc => hdisj x hc (List.mem_of_mem_take hx)
  have hdrop : ∀ x ∈ pl.drop (pyIndex pa pl + 1), decide (x ∉ g.fields) = true := by
    intro x hx
    simp only [decide_eq_true_eq]
    exact fun hc => hdisj x hc (List.mem_of_mem_drop hx)
  have hown : ∀ x ∈ g.fields, ¬ (decide (x ∉ g.fields) = true) := by
    intro x hx
    simp [hx]
  simp only [List.filter_append]
  rw [List.filter_eq_self.mpr htake, List.filter_eq_self.mpr hdrop,
    List.filter_eq_nil_iff.mpr hown]
  simp [List.take_append_drop]

/-- C1 counterexample: for the concrete class `Person` extending the root,
the code resolves `[ID, Name, Children]` — `Person`'s field is inserted
after the root's anchor `ID`, not after the root's last field `Children` —
whereas the claim's splice-after-last-field reading predicts
`[ID, Children, Name]`. -/
theorem c1_counterexample :
    gfflResult 2 env0 "Person" =
      some (fPerson, [rootID, fPerson, rootChildren]) ∧
    gfflResult 1 env0 "Displayable_DataObject" =
      some (rootID, [rootID, rootChildren]) ∧
    claimedFullFields [rootID, rootChildren] personGen.fields =
      [rootID, rootChildren, fPerson] ∧
    ([rootID, fPerson, rootChildren] : List Field) ≠
      [rootID, rootChildren, fPerson] :=
  ⟨rfl, rfl, rfl, by decide⟩

/-- Witness for the amended C1 at the concrete registry `env0`. -/
theorem c1_witness :
    env0 "Person" = some personGen ∧
    personGen.followField = none ∧
    gffl 1 env0 personGen.extendsName =
      some (rootID, [rootID, rootChildren], env0, 0) ∧
    gffl 2 env0 "Person" =
      some (fPerson, [rootID, fPerson, rootChildren], env0Memo, 1) ∧
    rootID ∈ [rootID, rootChildren] ∧
    personGen.fields.Nodup ∧
    (∀ f ∈ personGen.fields, f ∉ [rootID, rootChildren]) ∧
    ((fPerson, ([rootID, fPerson, rootChildren] : List Field), env0Memo,
        (1 : Nat)).2.1 =
      [rootID, rootChildren].take (pyIndex rootID [rootID, rootChildren] + 1) ++
        personGen.fields ++
        [rootID, rootChildren].drop (pyIndex rootID [rootID, rootChildren] + 1) ∧
     (fPerson, ([rootID, fPerson, rootChildren] : List Field), env0Memo,
        (1 : Nat)).2.1.filter (fun x => decide (x ∉ personGen.fields)) =
       [rootID, rootChildren]) :=
  ⟨rfl, rfl, rfl, rfl, by decide, by decide, by decide,
   c1_splice_after_anchor 1 env0 "Person" personGen rootID
     [rootID, rootChildren] env0 0
     (fPerson, [rootID, fPerson, rootChildren], env0Memo, 1)
     rfl rfl rfl rfl (by decide) (by decide) (by decide)⟩

/-- C2: resolving the same class a second time returns the identical pair,
performs no parent-resolver query (the counter of the second call is 0),
and leaves the registry untouched; because the second call depends only on
the registry left by the first, whatever is done to the first returned list
cannot change what a later call returns. -/
theorem c2_memoized (fuel fuel2 : Nat) (env : Env) (name : String)
    (a : Field) (l : List Field) (env2 : Env) (k : Nat)
    (h : gffl fuel env name = some (a, l, env2, k)) :
    gffl (fuel2 + 1) env2 name = some (a, l, env2, 0) := by
  cases fuel with
  | zero => simp [gffl] at h
  | succ m =>
    cases henv : env name with
    | none =>
      simp only [gffl, henv] at h
      exact Option.noConfusion h
    | some g =>
      cases hf : g.followField with
      | some a0 =>
        simp only [gffl, henv, hf, Option.some.injEq, Prod.mk.injEq] at h
        obtain ⟨ha, hl, henv2, hk⟩ := h
        subst ha hl
        rw [← henv2]
        simp only [gffl, henv, hf]
      | none =>
        cases hr : gffl m env g.extendsName with
        | none =>
          simp only [gffl, henv, hf, hr] at h
          exact Option.noConfusion h
        | some p =>
          obtain ⟨pa, pl, env1, k1⟩ := p
          simp only [gffl, henv, hf, hr, Option.some.injEq, Prod.mk.injEq] at h
          obtain ⟨ha, hl, henv2, hk⟩ := h
          subst ha hl
          rw [← henv2]
          simp [gffl]

/-- Witness for C2 at the concrete registry `env0`: resolving `Person`
(one parent query) then resolving it again (zero parent queries, identical
pair, registry unchanged). -/
theorem c2_witness :
    gffl 2 env0 "Person" =
      some (fPerson, [rootID, fPerson, rootChildren], env0Memo, 1) ∧
    gffl 1 env0Memo "Person" =
      some (fPerson, [rootID, fPerson, rootChildren], env0Memo, 0) :=
  ⟨rfl, c2_memoized 2 0 env0 "Person" fPerson [rootID, fPerson, rootChildren]
     env0Memo 1 rfl⟩

/-- One insertion step keeps the chain shape: the insertion position is at
least 1 (so `ID` stays first) and at most one before the end (so `Children`
stays last), because the anchor's first occurrence lies before the final
`Children`. -/
theorem chainInvP_insert (f a : Field) (l : List Field) (h : chainInvP a l) :
    chainInvP f (pyInsert (pyIndex a l + 1) f l) := by
  obtain ⟨mid, hl, hmem⟩ := h
  subst hl
  have hlt : pyIndex a (rootID :: mid ++ [rootChildren]) <
      (rootID :: mid).length := by
    have := pyIndex_lt_of_mem_left a (rootID :: mid) [rootChildren] hmem
    simpa using this
  simp only [List.length_cons] at hlt
  refine ⟨mid.take (pyIndex a (rootID :: mid ++ [rootChildren])) ++
    f :: mid.drop (pyIndex a (rootID :: mid ++ [rootChildren])), ?_, by simp⟩
  have hpre : (rootID :: mid ++ [rootChildren]) =
      (rootID :: mid) ++ [rootChildren] := by simp
  rw [pyInsert, hpre,
    List.take_append_of_le_length (by simpa using Nat.succ_le_of_lt hlt),
    List.drop_append_of_le_length (by simpa using Nat.succ_le_of_lt hlt)]
  simp [List.take_succ_cons, List.drop_succ_cons]

/-- The whole insertion loop keeps the chain shape, ending with the last
inserted field (or the original anchor) as the new anchor. -/
theorem insertOwnFields_chainInvP (own : List Field) :
    ∀ (a : Field) (l : List Field), chainInvP a l →
      chainInvP (insertOwnFields a l own).1 (insertOwnFields a l own).2 := by
  induction own with
  | nil => intro a l h; simpa [insertOwnFields]
  | cons f fs ih =>
    intro a l h
    simp only [insertOwnFields]
    exact ih f _ (chainInvP_insert f a l h)

/-- Resolution preserves root-groundedness and returns a chain-shaped list
with its anchor before the final `Children`. -/
theorem gffl_chainInv (fuel : Nat) :
    ∀ (env : Env) (name : String) (r : Field × List Field × Env × Nat),
      envOK env → gffl fuel env name = some r →
      chainInvP r.1 r.2.1 ∧ envOK r.2.2.1 := by
  induction fuel with
  | zero =>
    intro env name r _ h
    exact Option.noConfusion h
  | succ m ih =>
    intro env name r hok h
    cases henv : env name with
    | none =>
      simp only [gffl, henv] at h
      exact Option.noConfusion h
    | some g =>
      cases hf : g.followField with
      | some a0 =>
        simp only [gffl, henv, hf, Option.some.injEq] at h
        subst h
        exact ⟨hok name g a0 henv hf, hok⟩
      | none =>
        cases hr : gffl m env g.extendsName with
        | none =>
          simp only [gffl, henv, hf, hr] at h
          exact Option.noConfusion h
        | some p =>
          obtain ⟨hcp, hokp⟩ := ih env g.extendsName p hok hr
          obtain ⟨pa, pl, env1, k1⟩ := p
          simp only [gffl, henv, hf, hr, Option.some.injEq] at h
          subst h
          have hci := insertOwnFields_chainInvP g.fields pa pl hcp
          refine ⟨hci, ?_⟩
          intro n g2 a2 hn hf2
          by_cases hnn : n = name
          · subst hnn
            simp only [if_true, reduceIte, Option.some.injEq] at hn
            subst hn
            simp only at hf2
            obtain ⟨a2', ha2⟩ : ∃ x, some (insertOwnFields pa pl g.fields).1 =
                some x := ⟨_, rfl⟩
            simp only [Option.some.injEq] at hf2
            rw [← hf2]
            exact hci
          · simp only [if_neg hnn] at hn
            exact hokp n g2 a2 hn hf2

/-- C10: for every class whose resolution succeeds over a root-grounded
registry, the resolved full field list has the root's `ID` field first and
the root's `Children` field last, and every other field lies strictly
between them.  The registry left behind is root-grounded again. -/
theorem c10_root_bounds (fuel : Nat) (env : Env) (name : String)
    (a : Field) (l : List Field) (env2 : Env) (k : Nat)
    (hok : envOK env) (h : gffl fuel env name = some (a, l, env2, k)) :
    l.head? = some rootID ∧ l.getLast? = some rootChildren ∧
    (∀ f ∈ l, f ≠ rootID → f ≠ rootChildren → f ∈ (l.drop 1).dropLast) ∧
    envOK env2 := by
  obtain ⟨⟨mid, hl, hmem⟩, hok2⟩ :=
    gffl_chainInv fuel env name (a, l, env2, k) hok h
  subst hl
  refine ⟨rfl, ?_, ?_, hok2⟩
  · rw [show (rootID :: mid ++ [rootChildren]) =
        (rootID :: mid) ++ [rootChildren] by simp]
    exact List.getLast?_concat _
  · intro f hf h1 h2
    have hdl : ((rootID :: mid ++ [rootChildren]).drop 1).dropLast = mid := by
      simp [List.dropLast_concat]
    rw [hdl]
    rcases List.mem_cons.mp hf with hc | hc
    · exact absurd hc h1
    · rcases List.mem_append.mp hc with hc2 | hc2
      · exact hc2
      · rcases List.mem_singleton.mp hc2 with hc3
        exact absurd hc3 h2

theorem envOK_env0 : envOK env0 := by
  intro n g a hg hf
  by_cases h1 : n = "Displayable_DataObject"
  · rw [h1] at hg
    simp only [env0, reduceIte, Option.some.injEq] at hg
    subst hg
    simp only [rootGen, Option.some.injEq] at hf
    exact ⟨[], by simp [rootGen], by rw [← hf]; simp⟩
  · by_cases h2 : n = "Person"
    · rw [h2] at hg
      simp only [env0,
        show (("Person" : String) = "Displayable_DataObject") = False by simp,
        reduceIte, Option.some.injEq] at hg
      subst hg
      simp only [personGen, Option.some.injEq] at hf
      exact Option.noConfusion hf
    · simp only [env0, if_neg h1, if_neg h2] at hg
      exact Option.noConfusion hg

/-- Witness for C10 at the concrete registry `env0` and class `Person`. -/
theorem c10_witness :
    envOK env0 ∧
    gffl 2 env0 "Person" =
      some (fPerson, [rootID, fPerson, rootChildren], env0Memo, 1) ∧
    (([rootID, fPerson, rootChildren] : List Field).head? = some rootID ∧
     ([rootID, fPerson, rootChildren] : List Field).getLast? =
       some rootChildren ∧
     (∀ f ∈ ([rootID, fPerson, rootChildren] : List Field), f ≠ rootID →
       f ≠ rootChildren →
       f ∈ (([rootID, fPerson, rootChildren] : List Field).drop 1).dropLast) ∧
     envOK env0Memo) :=
  ⟨envOK_env0, rfl,
   c10_root_bounds 2 env0 "Person" fPerson [rootID, fPerson, rootChildren]
     env0Memo 1 envOK_env0 rfl⟩

/-- Normalisation forces `avoid_constructor` on every field that carries a
`dataCore` (the `# TODO remove` loop, lines 96-99). -/
theorem normalizeField_forces_avoid (class_name : String) (f g : Field)
    (hdc : f.dataCore.isSome = true)
    (hg : normalizeField class_name f = .ok g) :
    g.avoid_constructor = true := by
  simp only [normalizeField] at hg
  split at hg
  · exact Except.noConfusion hg
  · simp only [Except.ok.injEq] at hg
    subst hg
    split_ifs <;> simp_all
  · simp only [Except.ok.injEq] at hg
    subst hg
    split_ifs <;> simp_all

/-- C5 (amended): a field whose `dataCore` strategy is `Static` with a
literal value generates, under a divider comment bearing the field's name,
the registration line invoking the static-data-core wiring call with that
literal — and the field is always excluded from the generated constructor,
whether or not it is flagged `avoidConstructor`, because normalisation
forces `avoid_constructor` on every field carrying a `dataCore`
(the `# TODO remove` loop of `ClassGenerator.__init__`, lines 96-99). -/
theorem c5_static_datacore (class_name : String) (f : Field) (value : String)
    (hdc : f.dataCore = some (.staticCore value)) :
    (∃ pre, properties_add_field class_name f =
      .ok [GenItem.sub true (GenItem.divider (some f.name) :: pre ++
        [GenItem.line ("dataObjectSchema.get(" ++ fkey f ++
          ").setDataCore_schema(new Static_DataCore_Schema<>(\"" ++
          value ++ "\"))")])]) ∧
    (∀ g, normalizeField class_name f = .ok g →
      g.avoid_constructor = true ∧ ∀ st, cons_add_field st g = st) := by
  constructor
  · refine ⟨(match f.props with
      | some ps => ps.flatMap (fun kv => kv.2.map (fun v2 =>
          GenItem.line ("dataObjectSchema.get(" ++ fkey f ++ ").getProperty(" ++
            kv.1 ++ ".class)." ++ v2)))
      | none => []) ++
      (if f.editable then
        [GenItem.line ("dataObjectSchema.get(" ++ fkey f ++
          ").setManualCanEdit(true)")]
      else []), ?_⟩
    simp [properties_add_field, hdc]
  · intro g hg
    have hav := normalizeField_forces_avoid class_name f g (by simp [hdc]) hg
    exact ⟨hav, fun st => by simp [cons_add_field, hav]⟩

/-- Witness for the amended C5 at the concrete field `f0`. -/
theorem c5_witness :
    f0.dataCore = some (DataCore.staticCore "N/A") ∧
    ((∃ pre, properties_add_field "Foo" f0 =
      .ok [GenItem.sub true (GenItem.divider (some f0.name) :: pre ++
        [GenItem.line ("dataObjectSchema.get(" ++ fkey f0 ++
          ").setDataCore_schema(new Static_DataCore_Schema<>(\"" ++
          "N/A" ++ "\"))")])]) ∧
     (∀ g, normalizeField "Foo" f0 = .ok g →
        g.avoid_constructor = true ∧ ∀ st, cons_add_field st g = st)) :=
  ⟨rfl, c5_static_datacore "Foo" f0 "N/A" rfl⟩

/-- C5 counterexample: `f0` carries a `Static` data core and is *not*
flagged `avoid_constructor`, yet after normalisation it is excluded from the
generated constructor (the parameter list contains only the database
parameter), contradicting the claim that exclusion happens only when
`avoidConstructor` is also set. -/
theorem c5_counterexample :
    f0.avoid_constructor = false ∧
    f0.dataCore = some (DataCore.staticCore "N/A") ∧
    normalizeField "Foo" f0 = .ok nf0 ∧
    nf0.avoid_constructor = true ∧
    (constructor_build [nf0]).1 = ["Database database"] ∧
    paramOf nf0 = "String status" ∧
    paramOf nf0 ∉ (constructor_build [nf0]).1 :=
  ⟨rfl, rfl, rfl, rfl, rfl, rfl, by decide⟩

theorem some_or_eq {α : Type} (a : α) (x : Option α) : (some a).or x = some a :=
  rfl

theorem getLast?_cons_or {α : Type} (a : α) (l : List α) :
    (a :: l).getLast? = l.getLast?.or (some a) := by
  cases l with
  | nil => rfl
  | cons b bs =>
    rw [List.getLast?_cons_cons]
    cases hbs : (b :: bs).getLast? with
    | none => simp at hbs
    | some x => rfl

/-- The parameters accumulated by the constructor visitor over a field
list. -/
theorem consFold_params (fs : List Field) :
    ∀ st : ConsState, (fs.foldl cons_add_field st).params =
      st.params ++ (fs.filter (fun f => !f.avoid_constructor)).map paramOf := by
  induction fs with
  | nil => intro st; simp
  | cons f fs ih =>
    intro st
    rw [List.foldl_cons, ih]
    by_cases hav : f.avoid_constructor = true
    · simp [cons_add_field, hav]
    · simp only [Bool.not_eq_true] at hav
      simp [cons_add_field, hav]

/-- The `_database_source` slot after the whole field list is visited: the
last visible field flagged `database_source`, or the initial value. -/
theorem consFold_db (fs : List Field) :
    ∀ st : ConsState, (fs.foldl cons_add_field st).databaseSource =
      ((fs.filter (fun f =>
        !f.avoid_constructor && f.database_source)).getLast?).or
        st.databaseSource := by
  induction fs with
  | nil => intro st; simp
  | cons f fs ih =>
    intro st
    rw [List.foldl_cons, ih]
    by_cases hav : f.avoid_constructor = true
    · simp [cons_add_field, hav]
    · simp only [Bool.not_eq_true] at hav
      by_cases hdb : f.database_source = true
      · have hfc : List.filter (fun f =>
            !f.avoid_constructor && f.database_source) (f :: fs) =
            f :: List.filter (fun f =>
              !f.avoid_constructor && f.database_source) fs := by
          simp [List.filter_cons, hav, hdb]
        rw [hfc, getLast?_cons_or, Option.or_assoc, some_or_eq]
        simp [cons_add_field, hav, hdb]
      · have hfc : List.filter (fun f =>
            !f.avoid_constructor && f.database_source) (f :: fs) =
            List.filter (fun f =>
              !f.avoid_constructor && f.database_source) fs := by
          simp only [Bool.not_eq_true] at hdb
          simp [List.filter_cons, hav, hdb]
        rw [hfc]
        simp only [Bool.not_eq_true] at hdb
        simp [cons_add_field, hav, hdb]

/-- C6: when some constructor-visible field is flagged `database_source`,
the generated full constructor's parameter list is exactly the visible-field
parameters (the `Database database` parameter is not inserted, and under the
stated freshness assumption does not occur at all) and the body opens by
forwarding the persistence context through that field's lowered name; when
no such field exists, `Database database` is inserted as the first parameter
and the body opens with `super(database`. -/
theorem c6_database_source (fullFields : List Field) :
    ((constructor_build fullFields).1 =
      (match dbsrcOf fullFields with
       | some _ => ([] : List String)
       | none => ["Database database"]) ++
      (fullFields.filter (fun f => !f.avoid_constructor)).map paramOf) ∧
    ((constructor_build fullFields).2.head? = some (GenItem.line
      (match dbsrcOf fullFields with
       | some f => "super(" ++ lowerFirst f.name ++ ".getTrackingDatabase()"
       | none => "super(database"))) ∧
    ((dbsrcOf fullFields).isSome = true ↔
      ∃ f, f ∈ fullFields ∧ f.avoid_constructor = false ∧
        f.database_source = true) ∧
    ((∀ f ∈ fullFields, paramOf f ≠ "Database database") →
      (dbsrcOf fullFields).isSome = true →
      "Database database" ∉ (constructor_build fullFields).1) := by
  have hdb : (fullFields.foldl cons_add_field {}).databaseSource =
      dbsrcOf fullFields := by
    rw [consFold_db]
    simp [dbsrcOf, Option.or_none]
  have hp : (fullFields.foldl cons_add_field {}).params =
      (fullFields.filter (fun f => !f.avoid_constructor)).map paramOf := by
    rw [consFold_params]
    rfl
  refine ⟨?_, ?_, ?_, ?_⟩
  · cases h : dbsrcOf fullFields with
    | some f => simp [constructor_build, cons_finish, hdb, h, hp]
    | none => simp [constructor_build, cons_finish, hdb, h, hp]
  · cases h : dbsrcOf fullFields with
    | some f => simp [constructor_build, cons_finish, hdb, h]
    | none => simp [constructor_build, cons_finish, hdb, h]
  · constructor
    · intro hs
      cases hl : (fullFields.filter (fun f =>
          !f.avoid_constructor && f.database_source)).getLast? with
      | none => rw [dbsrcOf, hl] at hs; cases hs
      | some f =>
        have hfm := List.mem_of_getLast?_eq_some hl
        obtain ⟨hmem, hpred⟩ := List.mem_filter.mp hfm
        simp only [Bool.and_eq_true, Bool.not_eq_true'] at hpred
        exact ⟨f, hmem, hpred.1, hpred.2⟩
    · rintro ⟨f, hmem, hav, hdbf⟩
      have hfm : f ∈ fullFields.filter (fun f =>
          !f.avoid_constructor && f.database_source) :=
        List.mem_filter.mpr ⟨hmem, by simp [hav, hdbf]⟩
      have hne : fullFields.filter (fun f =>
          !f.avoid_constructor && f.database_source) ≠ [] := by
        intro hc
        rw [hc] at hfm
        cases hfm
      cases hl : (fullFields.filter (fun f =>
          !f.avoid_constructor && f.database_source)).getLast? with
      | none => exact absurd (List.getLast?_eq_none_iff.mp hl) hne
      | some g => rw [dbsrcOf, hl]; rfl
  · intro hpar hsome hmem
    cases h : dbsrcOf fullFields with
    | none => rw [h] at hsome; cases hsome
    | some f =>
      have hpars : (constructor_build fullFields).1 =
          (fullFields.filter (fun f => !f.avoid_constructor)).map paramOf := by
        simp [constructor_build, cons_finish, hdb, h, hp]
      rw [hpars] at hmem
      obtain ⟨g, hgf, hpg⟩ := List.mem_map.mp hmem
      exact hpar g (List.mem_filter.mp hgf).1 hpg

/-- Witness for C6 at the concrete field `fBank`. -/
theorem c6_witness :
    (∀ f ∈ [fBank], paramOf f ≠ "Database database") ∧
    dbsrcOf [fBank] = some fBank ∧
    (dbsrcOf [fBank]).isSome = true ∧
    "Database database" ∉ (constructor_build [fBank]).1 :=
  ⟨by decide, by decide, by decide,
   (c6_database_source [fBank]).2.2.2 (by decide) (by decide)⟩

end JOD
